import Mathlib

/-!
Verification of the rerechan compiler pipeline (src/compiler/rerec.py):
a shallow embedding of the lexer (`Lexer.get_next_token`), the
recursive-descent parser (`Parser`) and the code generator
(`CodeGenerator`), together with proofs of the behavioural properties
of the three stages.

Loops of the Python source are embedded as fuel-indexed structural
recursions; every loop iteration in the source consumes at least one
character (lexer) or token (parser), so a fuel of `length + 1` is always
sufficient, which is proved in the totality theorem for the parser.
-/

namespace Rerec

/-- Embedding of the Python `Token` dataclass: a kind tag (`type`) and the
literal text (`value`). -/
structure Token where
  type : String
  value : String
deriving DecidableEq, Repr

/-- The token the lexer emits at end-of-input and the parser synthesizes
past the end of the stream (`Token('EOF', '')`). -/
def eofToken : Token := ⟨"EOF", ""⟩

/-- `Lexer.KEYWORDS = {'module', 'import', 'func', 'return'}`: an identifier
run equal to a keyword is emitted with the uppercased keyword kind
(`Token(ident.upper(), ident)`), otherwise with kind `IDENT`. -/
def mkWord (s : String) : Token :=
  if s = "module" then ⟨"MODULE", s⟩
  else if s = "import" then ⟨"IMPORT", s⟩
  else if s = "func" then ⟨"FUNC", s⟩
  else if s = "return" then ⟨"RETURN", s⟩
  else ⟨"IDENT", s⟩

/-- The fixed single-character punctuation set of `Lexer.get_next_token`. -/
def punctChars : List Char := [';', '\x7b', '\x7d', '(', ')', ',', '.', ':']

/-- Identifier-start test of `get_next_token`: `isalpha() or '_'`. -/
def isIdentStart (c : Char) : Bool := c.isAlpha || c = '_'

/-- Identifier-continuation test of `get_identifier`: `isalnum() or '_'`. -/
def isIdentChar (c : Char) : Bool := c.isAlphanum || c = '_'

/-- Embedding of `Lexer.get_next_token`, acting on the remaining character
list: skips whitespace, `//` comments and unrecognized characters, and
returns the next token together with the characters after it; at
end-of-input it returns `Token('EOF', '')`.  A string literal
(`get_string`) collects verbatim up to the next `"` or end-of-input and is
re-wrapped in quotes; the closing-quote advance is a no-op at
end-of-input.  The fuel argument bounds the skipping loop; every
recursive call strictly shortens the input, so `cs.length` fuel is
always enough (see `getTok_fuel`). -/
def getTok : Nat → List Char → Token × List Char
  | _, [] => (eofToken, [])
  | 0, cs => (eofToken, cs)
  | fuel + 1, c :: rest =>
    if c.isWhitespace then getTok fuel rest
    else if c = '/' ∧ rest.head? = some '/' then
      getTok fuel (rest.dropWhile (· != '\n'))
    else if isIdentStart c then
      (mkWord (String.mk (c :: rest.takeWhile isIdentChar)),
       rest.dropWhile isIdentChar)
    else if c = '"' then
      (⟨"STRING", String.mk ('"' :: (rest.takeWhile (· != '"') ++ ['"']))⟩,
       (rest.dropWhile (· != '"')).drop 1)
    else if c ∈ punctChars then
      (⟨String.mk [c], String.mk [c]⟩, rest)
    else getTok fuel rest

/-- `get_next_token` on the remaining input. -/
def nextToken (cs : List Char) : Token × List Char := getTok cs.length cs

/-- Embedding of the driver's tokenization loop in `compile_to_c`: call
`get_next_token` repeatedly, stopping at (and excluding) the `EOF` token.
Fuel bounds the number of tokens, which never exceeds the number of
remaining characters. -/
def tokLoop : Nat → List Char → List Token
  | 0, _ => []
  | fuel + 1, cs =>
    match nextToken cs with
    | (t, rest) => if t.type = "EOF" then [] else t :: tokLoop fuel rest

/-- Tokenize a whole source text, as the driver does. -/
def tokenize (cs : List Char) : List Token := tokLoop cs.length cs


/-! ## AST

Embedding of the `Node` dataclasses.  The parser only ever constructs
`StringLiteral` expressions (`parse_expression` rejects everything else),
so the expression category has that single variant, as §3 of the design
records. -/

/-- Expression nodes: `StringLiteral(value)`, the only expression form the
parser can build. -/
inductive Expr where
  | stringLiteral (value : String)
deriving DecidableEq, Repr

/-- The `value` field of an expression node. -/
def Expr.value : Expr → String
  | .stringLiteral v => v

/-- Statement nodes: `Call(func, args)` and `Return(value)`. -/
inductive Stmt where
  | call (func : String) (args : List Expr)
  | ret (value : Expr)
deriving DecidableEq, Repr

/-- `Function(name, params, returns, body)`; `params` is a list of
`(name, type)` pairs. -/
structure Function where
  name : String
  params : List (String × String)
  returns : String
  body : List Stmt
deriving DecidableEq, Repr

/-- `Module(name, imports, functions)`. -/
structure Module where
  name : String
  imports : List String
  functions : List Function
deriving DecidableEq, Repr

/-! ## Parser

The Python `Parser` holds the token list and a cursor; past the end the
current token is `Token('EOF', '')`.  The embedding passes the remaining
token list explicitly: the current token is the head (or `eofToken`), the
two-token peek is the second element, and advancing is taking the tail.
Failures are values of `ParseError`; `fuelExhausted` is the embedding
artifact for loop fuel running out, proved unreachable for the fuel the
parser uses. -/

/-- Errors of the parser: `SyntaxError` from a failed `expect`
(`Expected ..., got ...`), `SyntaxError` from statement dispatch
(`Unexpected token: ...`), and `NotImplementedError` from
`parse_expression`.  `fuelExhausted` is the fuel artifact. -/
inductive ParseError where
  | expectedGot (expected : String) (got : Token)
  | unexpectedToken (got : Token)
  | notImplemented (msg : String)
  | fuelExhausted
deriving DecidableEq, Repr

/-- `self.current_token`: head of the remaining tokens, or EOF. -/
def curTok : List Token → Token
  | [] => eofToken
  | t :: _ => t

/-- `Parser.peek`: the token after the current one, or EOF. -/
def peekTok : List Token → Token
  | _ :: t :: _ => t
  | _ => eofToken

/-- `Parser.expect`: succeed when the current token's type **or** value
equals the expected string, returning the token and advancing; raise
`SyntaxError` otherwise. -/
def expect (expected : String) (ts : List Token) :
    Except ParseError (Token × List Token) :=
  if (curTok ts).type = expected ∨ (curTok ts).value = expected then
    .ok (curTok ts, ts.tail)
  else
    .error (.expectedGot expected (curTok ts))

/-- `Parser.parse_expression`: a `STRING` token becomes a
`StringLiteral`; anything else raises `NotImplementedError`. -/
def parseExpression (ts : List Token) :
    Except ParseError (Expr × List Token) :=
  if (curTok ts).type = "STRING" then
    match expect "STRING" ts with
    | .ok (t, ts1) => .ok (.stringLiteral t.value, ts1)
    | .error e => .error e
  else
    .error (.notImplemented "Complex expressions not implemented yet")

/-- Argument loop of `Parser.parse_call`: `while value != ')'`, parse an
expression, then consume an optional `,`. -/
def parseCallArgs : Nat → List Token → Except ParseError (List Expr × List Token)
  | 0, _ => .error .fuelExhausted
  | fuel + 1, ts =>
    if (curTok ts).value = ")" then .ok ([], ts)
    else
      match parseExpression ts with
      | .error e => .error e
      | .ok (e, ts1) =>
        match (if (curTok ts1).value = "," then expect "," ts1
               else .ok (curTok ts1, ts1)) with
        | .error e2 => .error e2
        | .ok (_, ts2) =>
          match parseCallArgs fuel ts2 with
          | .error e3 => .error e3
          | .ok (es, ts3) => .ok (e :: es, ts3)

/-- `Parser.parse_call`: `IDENT '(' args ')' ';'`. -/
def parseCall (fuel : Nat) (ts : List Token) :
    Except ParseError (Stmt × List Token) :=
  match expect "IDENT" ts with
  | .error e => .error e
  | .ok (ftok, ts1) =>
    match expect "(" ts1 with
    | .error e => .error e
    | .ok (_, ts2) =>
      match parseCallArgs fuel ts2 with
      | .error e => .error e
      | .ok (args, ts3) =>
        match expect ")" ts3 with
        | .error e => .error e
        | .ok (_, ts4) =>
          match expect ";" ts4 with
          | .error e => .error e
          | .ok (_, ts5) => .ok (.call ftok.value args, ts5)

/-- `Parser.parse_return`: `'return' expression ';'`. -/
def parseReturn (ts : List Token) : Except ParseError (Stmt × List Token) :=
  match expect "return" ts with
  | .error e => .error e
  | .ok (_, ts1) =>
    match parseExpression ts1 with
    | .error e => .error e
    | .ok (e, ts2) =>
      match expect ";" ts2 with
      | .error e2 => .error e2
      | .ok (_, ts3) => .ok (.ret e, ts3)

/-- `Parser.parse_statement`: `return` keyword starts a return statement;
an `IDENT` whose successor is `(` starts a call; anything else is
`SyntaxError("Unexpected token: ...")`. -/
def parseStatement (fuel : Nat) (ts : List Token) :
    Except ParseError (Stmt × List Token) :=
  if (curTok ts).value = "return" then parseReturn ts
  else if (curTok ts).type = "IDENT" ∧ (peekTok ts).value = "(" then
    parseCall fuel ts
  else .error (.unexpectedToken (curTok ts))

/-- Body loop of `Parser.parse_function`: `while value != '}'`, parse a
statement. -/
def parseStmts : Nat → List Token → Except ParseError (List Stmt × List Token)
  | 0, _ => .error .fuelExhausted
  | fuel + 1, ts =>
    if (curTok ts).value = "\x7d" then .ok ([], ts)
    else
      match parseStatement fuel ts with
      | .error e => .error e
      | .ok (s, ts1) =>
        match parseStmts fuel ts1 with
        | .error e => .error e
        | .ok (ss, ts2) => .ok (s :: ss, ts2)

/-- Parameter loop of `Parser.parse_function`: `while value != ')'`,
parse `IDENT ':' IDENT`, then consume an optional `,`. -/
def parseParams : Nat → List Token →
    Except ParseError (List (String × String) × List Token)
  | 0, _ => .error .fuelExhausted
  | fuel + 1, ts =>
    if (curTok ts).value = ")" then .ok ([], ts)
    else
      match expect "IDENT" ts with
      | .error e => .error e
      | .ok (ntok, ts1) =>
        match expect ":" ts1 with
        | .error e => .error e
        | .ok (_, ts2) =>
          match expect "IDENT" ts2 with
          | .error e => .error e
          | .ok (ttok, ts3) =>
            match (if (curTok ts3).value = "," then expect "," ts3
                   else .ok (curTok ts3, ts3)) with
            | .error e => .error e
            | .ok (_, ts4) =>
              match parseParams fuel ts4 with
              | .error e => .error e
              | .ok (ps, ts5) => .ok ((ntok.value, ttok.value) :: ps, ts5)

/-- `Parser.parse_function`: `'func' IDENT '(' params ')'` then an
optional `'->' IDENT` return type (default `"void"`), then
`'{' statements '}'`. -/
def parseFunction (fuel : Nat) (ts : List Token) :
    Except ParseError (Function × List Token) :=
  match expect "func" ts with
  | .error e => .error e
  | .ok (_, ts1) =>
    match expect "IDENT" ts1 with
    | .error e => .error e
    | .ok (ntok, ts2) =>
      match expect "(" ts2 with
      | .error e => .error e
      | .ok (_, ts3) =>
        match parseParams fuel ts3 with
        | .error e => .error e
        | .ok (params, ts4) =>
          match expect ")" ts4 with
          | .error e => .error e
          | .ok (_, ts5) =>
            match (if (curTok ts5).value = "->" then
                     match expect "->" ts5 with
                     | .error e => .error e
                     | .ok (_, r1) =>
                       match expect "IDENT" r1 with
                       | .error e => .error e
                       | .ok (rtok, r2) => .ok (rtok.value, r2)
                   else .ok ("void", ts5) :
                     Except ParseError (String × List Token)) with
            | .error e => .error e
            | .ok (returns, ts6) =>
              match expect "\x7b" ts6 with
              | .error e => .error e
              | .ok (_, ts7) =>
                match parseStmts fuel ts7 with
                | .error e => .error e
                | .ok (body, ts8) =>
                  match expect "\x7d" ts8 with
                  | .error e => .error e
                  | .ok (_, ts9) =>
                    .ok (⟨ntok.value, params, returns, body⟩, ts9)

/-- Dotted-path loop of `Parser.parse_import`: `while value == '.'`,
consume `'.' IDENT`. -/
def parseDots : Nat → List Token → Except ParseError (List String × List Token)
  | 0, _ => .error .fuelExhausted
  | fuel + 1, ts =>
    if (curTok ts).value = "." then
      match expect "." ts with
      | .error e => .error e
      | .ok (_, ts1) =>
        match expect "IDENT" ts1 with
        | .error e => .error e
        | .ok (idt, ts2) =>
          match parseDots fuel ts2 with
          | .error e => .error e
          | .ok (rest, ts3) => .ok (idt.value :: rest, ts3)
    else .ok ([], ts)

/-- `Parser.parse_import`: `'import' IDENT ('.' IDENT)* ';'`, joining the
path parts with `.`. -/
def parseImport (fuel : Nat) (ts : List Token) :
    Except ParseError (String × List Token) :=
  match expect "import" ts with
  | .error e => .error e
  | .ok (_, ts1) =>
    match expect "IDENT" ts1 with
    | .error e => .error e
    | .ok (idt, ts2) =>
      match parseDots fuel ts2 with
      | .error e => .error e
      | .ok (rest, ts3) =>
        match expect ";" ts3 with
        | .error e => .error e
        | .ok (_, ts4) =>
          .ok (String.intercalate "." (idt.value :: rest), ts4)

/-- Import loop of `Parser.parse_module`: `while value == 'import'`. -/
def parseImports : Nat → List Token →
    Except ParseError (List String × List Token)
  | 0, _ => .error .fuelExhausted
  | fuel + 1, ts =>
    if (curTok ts).value = "import" then
      match parseImport fuel ts with
      | .error e => .error e
      | .ok (i, ts1) =>
        match parseImports fuel ts1 with
        | .error e => .error e
        | .ok (imps, ts2) => .ok (i :: imps, ts2)
    else .ok ([], ts)

/-- Function loop of `Parser.parse_module`: `while value == 'func'`. -/
def parseFunctions : Nat → List Token →
    Except ParseError (List Function × List Token)
  | 0, _ => .error .fuelExhausted
  | fuel + 1, ts =>
    if (curTok ts).value = "func" then
      match parseFunction fuel ts with
      | .error e => .error e
      | .ok (f, ts1) =>
        match parseFunctions fuel ts1 with
        | .error e => .error e
        | .ok (fs, ts2) => .ok (f :: fs, ts2)
    else .ok ([], ts)

/-- `Parser.parse_module`: `'module' IDENT ';'`, then imports, then
functions. -/
def parseModule (fuel : Nat) (ts : List Token) :
    Except ParseError (Module × List Token) :=
  match expect "module" ts with
  | .error e => .error e
  | .ok (_, ts1) =>
    match expect "IDENT" ts1 with
    | .error e => .error e
    | .ok (ntok, ts2) =>
      match expect ";" ts2 with
      | .error e => .error e
      | .ok (_, ts3) =>
        match parseImports fuel ts3 with
        | .error e => .error e
        | .ok (imps, ts4) =>
          match parseFunctions fuel ts4 with
          | .error e => .error e
          | .ok (funcs, ts5) => .ok (⟨ntok.value, imps, funcs⟩, ts5)

/-- `Parser.parse`: parse a module from the full token list (any tokens
left over after the module are ignored, as in the source).  The fuel
`ts.length + 1` is sufficient, as proved in the totality theorem. -/
def parse (ts : List Token) : Except ParseError Module :=
  match parseModule (ts.length + 1) ts with
  | .error e => .error e
  | .ok (m, _) => .ok m

/-! ## Code generator

Embedding of `CodeGenerator`: the mutable `output` list and `indent`
counter become an explicit state record.  `generate_call` indexes
`call.args[0]` for a `print` call, which raises `IndexError` when the
argument list is empty; that is the one failure of the generator, modelled
as `GenError.indexError`. -/

/-- The only runtime failure of the generator: `call.args[0]` on an empty
argument list. -/
inductive GenError where
  | indexError
deriving DecidableEq, Repr

/-- The generator's state: `self.output` and `self.indent`. -/
structure GenState where
  output : List String
  indent : Nat
deriving DecidableEq, Repr

/-- A fresh `CodeGenerator()`: empty output, zero indentation. -/
def initState : GenState := ⟨[], 0⟩

/-- `CodeGenerator.emit`: append the line prefixed by four spaces per
indentation level. -/
def emitLine (line : String) (g : GenState) : GenState :=
  ⟨g.output ++ [String.join (List.replicate g.indent "    ") ++ line], g.indent⟩

/-- `CodeGenerator.get_code`: join the output lines with newlines. -/
def getCode (g : GenState) : String := String.intercalate "\n" g.output

/-- The fixed `type_map` of `generate_function` with its `.get(typ, 'int')`
fallback: unrecognized names map to `int`. -/
def typeMap (t : String) : String :=
  if t = "int" then "int"
  else if t = "void" then "void"
  else if t = "word" then "size_t"
  else if t = "ptr" then "void*"
  else "int"

/-- `CodeGenerator.generate_call`: a call of `print` emits
`printf(<first argument's text>);` using only `args[0]` (IndexError when
there is none); any other call emits the name with all argument texts
comma-joined. -/
def generateCall (func : String) (args : List Expr) (g : GenState) :
    Except GenError GenState :=
  if func = "print" then
    match args with
    | [] => .error .indexError
    | a :: _ => .ok (emitLine ("printf(" ++ a.value ++ ");") g)
  else
    .ok (emitLine
      (func ++ "(" ++ String.intercalate ", " (args.map Expr.value) ++ ");") g)

/-- `CodeGenerator.generate_return` on the expressions the parser can
produce: a string literal lowers to `return <text>;`. -/
def generateReturn (e : Expr) (g : GenState) : GenState :=
  emitLine ("return " ++ e.value ++ ";") g

/-- `CodeGenerator.generate_statement`: dispatch on the node kind. -/
def generateStatement (s : Stmt) (g : GenState) : Except GenError GenState :=
  match s with
  | .call f args => generateCall f args g
  | .ret e => .ok (generateReturn e g)

/-- The statement loop of `generate_function`. -/
def generateStmts : List Stmt → GenState → Except GenError GenState
  | [], g => .ok g
  | s :: rest, g =>
    match generateStatement s g with
    | .error e => .error e
    | .ok g1 => generateStmts rest g1

/-- `CodeGenerator.generate_function`: emit the signature (types mapped
through `typeMap`), generate the body at one deeper indentation, then the
closing brace and a blank line. -/
def generateFunction (f : Function) (g : GenState) : Except GenError GenState :=
  let g1 := emitLine
    (typeMap f.returns ++ " " ++ f.name ++ "(" ++
      String.intercalate ", "
        (f.params.map fun p => typeMap p.2 ++ " " ++ p.1) ++ ") \x7b") g
  let g2 : GenState := ⟨g1.output, g1.indent + 1⟩
  match generateStmts f.body g2 with
  | .error e => .error e
  | .ok g3 =>
    let g4 : GenState := ⟨g3.output, g3.indent - 1⟩
    .ok (emitLine "" (emitLine "\x7d" g4))

/-- The import loop of `generate`: only the exact path `std.io` emits a
forward declaration; every other import is silently ignored. -/
def generateImports : List String → GenState → GenState
  | [], g => g
  | imp :: rest, g =>
    generateImports rest
      (if imp = "std.io" then
        emitLine "void std_io_print(const char* msg);" g
      else g)

/-- The function loop of `generate`. -/
def generateFunctions : List Function → GenState → Except GenError GenState
  | [], g => .ok g
  | f :: rest, g =>
    match generateFunction f g with
    | .error e => .error e
    | .ok g1 => generateFunctions rest g1

/-- `CodeGenerator.generate`: the two fixed includes, a blank line, then
the import declarations, a blank line, then every function in order. -/
def generate (m : Module) (g : GenState) : Except GenError GenState :=
  let g1 := emitLine "" (emitLine "#include <stdlib.h>" (emitLine "#include <stdio.h>" g))
  let g2 := emitLine "" (generateImports m.imports g1)
  generateFunctions m.functions g2

/-- Run a fresh `CodeGenerator()` on a module and read back the text, as
`compile_to_c` does. -/
def runGen (m : Module) : Except GenError String :=
  match generate m initState with
  | .error e => .error e
  | .ok g => .ok (getCode g)

/-- Errors of the whole front-to-back pipeline. -/
inductive CompileError where
  | parseErr (e : ParseError)
  | genErr (e : GenError)
deriving DecidableEq, Repr

/-- The core of `RereCompiler.compile_to_c` without the file system:
tokenize, parse, generate, read the text. -/
def compileToC (source : String) : Except CompileError String :=
  match parse (tokenize source.toList) with
  | .error e => .error (.parseErr e)
  | .ok m =>
    match runGen m with
    | .error e => .error (.genErr e)
    | .ok code => .ok code

/-! ## Helper predicates used by the theorems -/

/-- The shapes a token emitted by the lexer can have: an identifier or
keyword word starting with an identifier-start character, a string token
whose text starts with a quote, or a single punctuation character. -/
def tokenShape (t : Token) : Prop :=
  (∃ c l, isIdentStart c = true ∧ t = mkWord (String.mk (c :: l)))
  ∨ (∃ l, t = ⟨"STRING", String.mk ('"' :: l)⟩)
  ∨ (∃ c, c ∈ punctChars ∧ t = ⟨String.mk [c], String.mk [c]⟩)

/-- Recognizer for the fuel-exhaustion artifact value. -/
def fuelOutB {α : Type} : Except ParseError α → Bool
  | .error .fuelExhausted => true
  | _ => false

/-- Success recognizer for a pipeline stage result. -/
def isOkB {ε α : Type} : Except ε α → Bool
  | .ok _ => true
  | .error _ => false

deriving instance DecidableEq for Except

/-! ## Lexer lemmas -/

theorem length_dropWhile_le (p : Char → Bool) (l : List Char) :
    (l.dropWhile p).length ≤ l.length :=
  (List.dropWhile_suffix p).length_le

/-- With fuel at least the input length, `getTok` never hits the
out-of-fuel fallback: any two sufficient fuels compute the same answer. -/
theorem getTok_eq_of_le (fuel : Nat) :
    ∀ (fuel' : Nat) (cs : List Char), cs.length ≤ fuel → cs.length ≤ fuel' →
      getTok fuel cs = getTok fuel' cs := by
  induction fuel with
  | zero =>
    intro fuel' cs h _
    have : cs = [] := List.length_eq_zero.mp (Nat.le_zero.mp h)
    subst this
    cases fuel' <;> rfl
  | succ fuel ih =>
    intro fuel' cs h h'
    match cs with
    | [] => cases fuel' <;> rfl
    | c :: rest =>
      match fuel' with
      | fuel'' + 1 =>
        simp only [List.length_cons, Nat.succ_le_succ_iff] at h h'
        rw [getTok, getTok]
        by_cases hws : c.isWhitespace
        · rw [if_pos hws, if_pos hws]
          exact ih fuel'' rest h h'
        · rw [if_neg hws, if_neg hws]
          by_cases hcm : c = '/' ∧ rest.head? = some '/'
          · rw [if_pos hcm, if_pos hcm]
            have hd := length_dropWhile_le (· != '\n') rest
            exact ih fuel'' _ (Nat.le_trans hd h) (Nat.le_trans hd h')
          · rw [if_neg hcm, if_neg hcm]
            by_cases hid : isIdentStart c
            · rw [if_pos hid, if_pos hid]
            · rw [if_neg hid, if_neg hid]
              by_cases hq : c = '"'
              · rw [if_pos hq, if_pos hq]
              · rw [if_neg hq, if_neg hq]
                by_cases hp : c ∈ punctChars
                · rw [if_pos hp, if_pos hp]
                · rw [if_neg hp, if_neg hp]
                  exact ih fuel'' rest h h'

/-- Sufficient fuel computes `nextToken`. -/
theorem getTok_fuel (fuel : Nat) (cs : List Char) (h : cs.length ≤ fuel) :
    getTok fuel cs = nextToken cs :=
  getTok_eq_of_le fuel cs.length cs h (Nat.le_refl _)

/-- Every `getTok` call with sufficient fuel either ends the input with
the EOF token or strictly consumes characters and produces a token of one
of the three shapes. -/
theorem getTok_cases (fuel : Nat) :
    ∀ cs : List Char, cs.length ≤ fuel →
      getTok fuel cs = (eofToken, []) ∨
      ((getTok fuel cs).2.length < cs.length ∧ tokenShape (getTok fuel cs).1) := by
  induction fuel with
  | zero =>
    intro cs h
    have : cs = [] := List.length_eq_zero.mp (Nat.le_zero.mp h)
    subst this
    left
    rfl
  | succ fuel ih =>
    intro cs h
    match cs with
    | [] => left; rfl
    | c :: rest =>
      simp only [List.length_cons, Nat.succ_le_succ_iff] at h
      rw [getTok]
      by_cases hws : c.isWhitespace
      · rw [if_pos hws]
        rcases ih rest h with h1 | ⟨h2, h3⟩
        · left; exact h1
        · right
          exact ⟨Nat.lt_succ_of_lt h2, h3⟩
      · rw [if_neg hws]
        by_cases hcm : c = '/' ∧ rest.head? = some '/'
        · rw [if_pos hcm]
          have hd := length_dropWhile_le (· != '\n') rest
          rcases ih _ (Nat.le_trans hd h) with h1 | ⟨h2, h3⟩
          · left; exact h1
          · right
            refine ⟨?_, h3⟩
            simp only [List.length_cons]
            omega
        · rw [if_neg hcm]
          by_cases hid : isIdentStart c
          · rw [if_pos hid]
            right
            refine ⟨?_, Or.inl ⟨c, rest.takeWhile isIdentChar, hid, rfl⟩⟩
            have hd := length_dropWhile_le isIdentChar rest
            simp only [List.length_cons]
            omega
          · rw [if_neg hid]
            by_cases hq : c = '"'
            · rw [if_pos hq]
              right
              refine ⟨?_, Or.inr (Or.inl ⟨rest.takeWhile (· != '"') ++ ['"'], rfl⟩)⟩
              have hd := length_dropWhile_le (· != '"') rest
              have := List.length_drop 1 (rest.dropWhile (· != '"'))
              simp only [List.length_cons]
              omega
            · rw [if_neg hq]
              by_cases hp : c ∈ punctChars
              · rw [if_pos hp]
                right
                exact ⟨Nat.lt_succ_self _, Or.inr (Or.inr ⟨c, hp, rfl⟩)⟩
              · rw [if_neg hp]
                rcases ih rest h with h1 | ⟨h2, h3⟩
                · left; exact h1
                · right
                  exact ⟨Nat.lt_succ_of_lt h2, h3⟩

/-- `get_next_token` either reports end-of-input or consumes input and
yields a shaped token. -/
theorem nextToken_cases (cs : List Char) :
    nextToken cs = (eofToken, []) ∨
    ((nextToken cs).2.length < cs.length ∧ tokenShape (nextToken cs).1) :=
  getTok_cases cs.length cs (Nat.le_refl _)

/-- Every token the driver's tokenization loop collects has one of the
three lexer shapes. -/
theorem tokLoop_shape (fuel : Nat) :
    ∀ cs : List Char, cs.length ≤ fuel → ∀ t ∈ tokLoop fuel cs, tokenShape t := by
  induction fuel with
  | zero =>
    intro cs _ t ht
    simp [tokLoop] at ht
  | succ fuel ih =>
    intro cs h t ht
    rw [tokLoop] at ht
    rcases nextToken_cases cs with h1 | ⟨h2, h3⟩
    · rw [h1] at ht
      simp [eofToken] at ht
    · cases hnt : nextToken cs with
      | mk tk rest =>
        rw [hnt] at ht h2 h3
        simp only at ht h2 h3
        by_cases htype : tk.type = "EOF"
        · rw [if_pos htype] at ht
          simp at ht
        · rw [if_neg htype] at ht
          rcases List.mem_cons.mp ht with rfl | hmem
          · exact h3
          · exact ih rest (by omega) t hmem

/-- Every token `tokenize` produces has one of the three lexer shapes. -/
theorem tokenize_shape (cs : List Char) (t : Token) (ht : t ∈ tokenize cs) :
    tokenShape t :=
  tokLoop_shape cs.length cs (Nat.le_refl _) t ht

/-- `mkWord` keeps the identifier text as the token value. -/
theorem mkWord_value (s : String) : (mkWord s).value = s := by
  unfold mkWord
  repeat' split
  all_goals rfl

/-- Equality of a `String.mk` with a literal forces the character lists
to agree. -/
theorem mk_eq_data {l : List Char} {s : String} (h : String.mk l = s) :
    l = s.data :=
  h ▸ rfl

/-- No lexer token shape yields the texts `-`, `>`, or `->`. -/
theorem tokenShape_not_arrow {t : Token} (h : tokenShape t) :
    t.value ≠ "-" ∧ t.value ≠ ">" ∧ t.value ≠ "->" := by
  rcases h with ⟨c, l, hc, rfl⟩ | ⟨l, rfl⟩ | ⟨c, hp, rfl⟩
  · rw [mkWord_value]
    refine ⟨?_, ?_, ?_⟩ <;> intro heq <;> have hd := mk_eq_data heq <;>
      simp at hd <;> obtain ⟨rfl, -⟩ := hd <;> exact absurd hc (by decide)
  · refine ⟨?_, ?_, ?_⟩ <;> intro heq <;> have hd := mk_eq_data heq <;> simp at hd
  · refine ⟨?_, ?_, ?_⟩ <;> intro heq <;> have hd := mk_eq_data heq <;>
      simp at hd <;> subst hd <;> exact absurd hp (by decide)

/-- A shaped token whose text is a reserved word is exactly the
corresponding keyword token. -/
theorem tokenShape_keyword {t : Token} (h : tokenShape t) :
    (t.value = "module" → t = ⟨"MODULE", "module"⟩) ∧
    (t.value = "import" → t = ⟨"IMPORT", "import"⟩) ∧
    (t.value = "func" → t = ⟨"FUNC", "func"⟩) ∧
    (t.value = "return" → t = ⟨"RETURN", "return"⟩) := by
  rcases h with ⟨c, l, hc, rfl⟩ | ⟨l, rfl⟩ | ⟨c, hp, rfl⟩
  · rw [mkWord_value]
    refine ⟨?_, ?_, ?_, ?_⟩ <;> intro heq <;> rw [heq] <;> rfl
  · refine ⟨?_, ?_, ?_, ?_⟩ <;> intro heq <;> have hd := mk_eq_data heq <;> simp at hd
  · refine ⟨?_, ?_, ?_, ?_⟩ <;> intro heq <;> have hd := mk_eq_data heq <;>
      simp at hd

/-! ## Parser lemmas: consumption and suffix facts -/

/-- A successful `expect` returns the current token and the tail. -/
theorem expect_ok {e : String} {ts : List Token} {t : Token} {r : List Token}
    (h : expect e ts = .ok (t, r)) : t = curTok ts ∧ r = ts.tail := by
  unfold expect at h
  split at h
  · cases h; exact ⟨rfl, rfl⟩
  · cases h

/-- `expect` of anything other than `EOF` or the empty string cannot
succeed on the exhausted stream: the synthesized EOF token fails the
check. -/
theorem expect_ok_ne {e : String} {ts : List Token} {t : Token} {r : List Token}
    (h : expect e ts = .ok (t, r)) (h1 : e ≠ "EOF") (h2 : e ≠ "") : ts ≠ [] := by
  intro hnil
  subst hnil
  unfold expect at h
  split at h
  · rename_i hcond
    simp only [curTok, eofToken] at hcond
    rcases hcond with h3 | h3
    · exact h1 h3.symm
    · exact h2 h3.symm
  · cases h

/-- The current token of a nonempty stream is its head, hence a member. -/
theorem curTok_mem {ts : List Token} (h : ts ≠ []) : curTok ts ∈ ts := by
  match ts with
  | [] => exact absurd rfl h
  | t :: rest => exact List.mem_cons_self t rest

/-- A successful `parse_expression` consumed exactly the current token,
and the stream was nonempty. -/
theorem parseExpression_ok {ts : List Token} {e : Expr} {r : List Token}
    (h : parseExpression ts = .ok (e, r)) : r = ts.tail ∧ ts ≠ [] := by
  unfold parseExpression at h
  split at h
  · rename_i hstr
    split at h
    · rename_i tk ts1 heq
      cases h
      refine ⟨(expect_ok heq).2, ?_⟩
      intro hnil
      rw [hnil] at hstr
      exact absurd hstr (by decide)
    · cases h
  · cases h

/-- A successful argument loop leaves a suffix of its input. -/
theorem parseCallArgs_suffix (fuel : Nat) :
    ∀ {ts : List Token} {es : List Expr} {r : List Token},
      parseCallArgs fuel ts = .ok (es, r) → r <:+ ts := by
  induction fuel with
  | zero => intro ts es r h; simp [parseCallArgs] at h
  | succ fuel ih =>
    intro ts es r h
    rw [parseCallArgs] at h
    split at h
    · cases h; exact List.suffix_refl _
    · split at h
      · cases h
      · rename_i e1 ts1 heq1
        split at h
        · cases h
        · rename_i tk2 ts2 heq2
          split at h
          · cases h
          · rename_i es3 ts3 heq3
            cases h
            obtain ⟨rfl, -⟩ := parseExpression_ok heq1
            have h2 : ts2 <:+ ts.tail := by
              split at heq2
              · obtain ⟨-, rfl⟩ := expect_ok heq2
                exact List.tail_suffix _
              · cases heq2; exact List.suffix_refl _
            exact ((ih heq3).trans h2).trans (List.tail_suffix _)

/-- A successful `parse_call` leaves a suffix of the tail; the stream was
nonempty. -/
theorem parseCall_ok {fuel : Nat} {ts : List Token} {s : Stmt} {r : List Token}
    (h : parseCall fuel ts = .ok (s, r)) : r <:+ ts.tail ∧ ts ≠ [] := by
  unfold parseCall at h
  split at h
  · cases h
  · rename_i ftok ts1 heq1
    split at h
    · cases h
    · rename_i tk2 ts2 heq2
      split at h
      · cases h
      · rename_i args ts3 heq3
        split at h
        · cases h
        · rename_i tk4 ts4 heq4
          split at h
          · cases h
          · rename_i tk5 ts5 heq5
            cases h
            obtain ⟨-, rfl⟩ := expect_ok heq1
            obtain ⟨-, rfl⟩ := expect_ok heq2
            have h3 := parseCallArgs_suffix _ heq3
            obtain ⟨-, rfl⟩ := expect_ok heq4
            obtain ⟨-, rfl⟩ := expect_ok heq5
            refine ⟨?_, expect_ok_ne heq1 (by decide) (by decide)⟩
            exact ((((List.tail_suffix _).trans (List.tail_suffix _)).trans
              h3).trans (List.tail_suffix _))

/-- A successful `parse_return` leaves a suffix of the tail; the stream
was nonempty. -/
theorem parseReturn_ok {ts : List Token} {s : Stmt} {r : List Token}
    (h : parseReturn ts = .ok (s, r)) : r <:+ ts.tail ∧ ts ≠ [] := by
  unfold parseReturn at h
  split at h
  · cases h
  · rename_i tk ts1 heq1
    split at h
    · cases h
    · rename_i ex ts2 heq2
      split at h
      · cases h
      · rename_i tk3 ts3 heq3
        cases h
        obtain ⟨-, rfl⟩ := expect_ok heq1
        obtain ⟨rfl, -⟩ := parseExpression_ok heq2
        obtain ⟨-, rfl⟩ := expect_ok heq3
        exact ⟨(List.tail_suffix _).trans (List.tail_suffix _),
          expect_ok_ne heq1 (by decide) (by decide)⟩

/-- A successful `parse_statement` consumed at least one token. -/
theorem parseStatement_ok {fuel : Nat} {ts : List Token} {s : Stmt}
    {r : List Token} (h : parseStatement fuel ts = .ok (s, r)) :
    r <:+ ts.tail ∧ ts ≠ [] := by
  unfold parseStatement at h
  split at h
  · exact parseReturn_ok h
  · split at h
    · exact parseCall_ok h
    · cases h

/-- A successful statement loop leaves a suffix of its input. -/
theorem parseStmts_suffix (fuel : Nat) :
    ∀ {ts : List Token} {ss : List Stmt} {r : List Token},
      parseStmts fuel ts = .ok (ss, r) → r <:+ ts := by
  induction fuel with
  | zero => intro ts ss r h; simp [parseStmts] at h
  | succ fuel ih =>
    intro ts ss r h
    rw [parseStmts] at h
    split at h
    · cases h; exact List.suffix_refl _
    · split at h
      · cases h
      · rename_i s1 ts1 heq1
        split at h
        · cases h
        · rename_i ss2 ts2 heq2
          cases h
          obtain ⟨h1, -⟩ := parseStatement_ok heq1
          exact (ih heq2).trans (h1.trans (List.tail_suffix _))

/-- A successful parameter loop leaves a suffix of its input. -/
theorem parseParams_suffix (fuel : Nat) :
    ∀ {ts : List Token} {ps : List (String × String)} {r : List Token},
      parseParams fuel ts = .ok (ps, r) → r <:+ ts := by
  induction fuel with
  | zero => intro ts ps r h; simp [parseParams] at h
  | succ fuel ih =>
    intro ts ps r h
    rw [parseParams] at h
    split at h
    · cases h; exact List.suffix_refl _
    · split at h
      · cases h
      · rename_i ntok ts1 heq1
        split at h
        · cases h
        · rename_i tk2 ts2 heq2
          split at h
          · cases h
          · rename_i ttok ts3 heq3
            split at h
            · cases h
            · rename_i tk4 ts4 heq4
              split at h
              · cases h
              · rename_i ps5 ts5 heq5
                cases h
                obtain ⟨-, rfl⟩ := expect_ok heq1
                obtain ⟨-, rfl⟩ := expect_ok heq2
                obtain ⟨-, rfl⟩ := expect_ok heq3
                have h4 : ts4 <:+ ts.tail.tail.tail := by
                  split at heq4
                  · obtain ⟨-, rfl⟩ := expect_ok heq4
                    exact List.tail_suffix _
                  · cases heq4; exact List.suffix_refl _
                exact ((ih heq5).trans h4).trans
                  (((List.tail_suffix _).trans (List.tail_suffix _)).trans
                    (List.tail_suffix _))

/-- A successful dotted-path loop leaves a suffix of its input. -/
theorem parseDots_suffix (fuel : Nat) :
    ∀ {ts : List Token} {ps : List String} {r : List Token},
      parseDots fuel ts = .ok (ps, r) → r <:+ ts := by
  induction fuel with
  | zero => intro ts ps r h; simp [parseDots] at h
  | succ fuel ih =>
    intro ts ps r h
    rw [parseDots] at h
    split at h
    · split at h
      · cases h
      · rename_i tk1 ts1 heq1
        split at h
        · cases h
        · rename_i idt ts2 heq2
          split at h
          · cases h
          · rename_i rest3 ts3 heq3
            cases h
            obtain ⟨-, rfl⟩ := expect_ok heq1
            obtain ⟨-, rfl⟩ := expect_ok heq2
            exact ((ih heq3).trans (List.tail_suffix _)).trans
              (List.tail_suffix _)
    · cases h; exact List.suffix_refl _

/-- A successful `parse_import` consumed at least one token. -/
theorem parseImport_ok {fuel : Nat} {ts : List Token} {i : String}
    {r : List Token} (h : parseImport fuel ts = .ok (i, r)) :
    r <:+ ts.tail ∧ ts ≠ [] := by
  unfold parseImport at h
  split at h
  · cases h
  · rename_i tk1 ts1 heq1
    split at h
    · cases h
    · rename_i idt ts2 heq2
      split at h
      · cases h
      · rename_i rest3 ts3 heq3
        split at h
        · cases h
        · rename_i tk4 ts4 heq4
          cases h
          obtain ⟨-, rfl⟩ := expect_ok heq1
          obtain ⟨-, rfl⟩ := expect_ok heq2
          have h3 := parseDots_suffix _ heq3
          obtain ⟨-, rfl⟩ := expect_ok heq4
          exact ⟨((List.tail_suffix _).trans h3).trans (List.tail_suffix _),
            expect_ok_ne heq1 (by decide) (by decide)⟩

/-- A successful import loop leaves a suffix of its input. -/
theorem parseImports_suffix (fuel : Nat) :
    ∀ {ts : List Token} {is' : List String} {r : List Token},
      parseImports fuel ts = .ok (is', r) → r <:+ ts := by
  induction fuel with
  | zero => intro ts is' r h; simp [parseImports] at h
  | succ fuel ih =>
    intro ts is' r h
    rw [parseImports] at h
    split at h
    · split at h
      · cases h
      · rename_i i1 ts1 heq1
        split at h
        · cases h
        · rename_i is2 ts2 heq2
          cases h
          obtain ⟨h1, -⟩ := parseImport_ok heq1
          exact (ih heq2).trans (h1.trans (List.tail_suffix _))
    · cases h; exact List.suffix_refl _

/-- A successful `parse_function` consumed at least one token, and when no
token in the stream has the text `->`, the parsed function's return type
is the implicit `"void"`. -/
theorem parseFunction_ok {fuel : Nat} {ts : List Token} {f : Function}
    {r : List Token} (h : parseFunction fuel ts = .ok (f, r)) :
    (r <:+ ts.tail ∧ ts ≠ []) ∧
      ((∀ t ∈ ts, t.value ≠ "->") → f.returns = "void") := by
  unfold parseFunction at h
  split at h
  · cases h
  · rename_i tk1 ts1 heq1
    split at h
    · cases h
    · rename_i ntok ts2 heq2
      split at h
      · cases h
      · rename_i tk3 ts3 heq3
        split at h
        · cases h
        · rename_i params ts4 heq4
          split at h
          · cases h
          · rename_i tk5 ts5 heq5
            split at h
            · cases h
            · rename_i ret6 ts6 heq6
              split at h
              · cases h
              · rename_i tk7 ts7 heq7
                split at h
                · cases h
                · rename_i body ts8 heq8
                  split at h
                  · cases h
                  · rename_i tk9 ts9 heq9
                    cases h
                    obtain ⟨-, rfl⟩ := expect_ok heq1
                    obtain ⟨-, rfl⟩ := expect_ok heq2
                    obtain ⟨-, rfl⟩ := expect_ok heq3
                    have h4 := parseParams_suffix _ heq4
                    obtain ⟨-, rfl⟩ := expect_ok heq5
                    have hne := expect_ok_ne heq1 (by decide) (by decide)
                    have h5 : ts4.tail <:+ ts.tail := by
                      refine ((List.tail_suffix _).trans h4).trans ?_
                      exact ((List.tail_suffix _).trans (List.tail_suffix _))
                    have h6 : ts6 <:+ ts4.tail ∧
                        ((∀ t ∈ ts, t.value ≠ "->") → ret6 = "void") := by
                      split at heq6
                      · rename_i harrow
                        refine ⟨?_, fun H => ?_⟩
                        · split at heq6
                          · cases heq6
                          · rename_i tka tsa heqa
                            split at heq6
                            · cases heq6
                            · rename_i rtok tsb heqb
                              cases heq6
                              obtain ⟨-, rfl⟩ := expect_ok heqa
                              obtain ⟨-, rfl⟩ := expect_ok heqb
                              exact (List.tail_suffix _).trans (List.tail_suffix _)
                        · exfalso
                          have hne4 : ts4.tail ≠ [] := by
                            intro hnil
                            rw [hnil] at harrow
                            exact absurd harrow (by decide)
                          have hmem : curTok ts4.tail ∈ ts :=
                            ((h5.trans (List.tail_suffix _)).sublist.subset)
                              (curTok_mem hne4)
                          exact H _ hmem harrow
                      · cases heq6
                        exact ⟨List.suffix_refl _, fun _ => rfl⟩
                    obtain ⟨h6s, h6v⟩ := h6
                    obtain ⟨-, rfl⟩ := expect_ok heq7
                    have h8 := parseStmts_suffix _ heq8
                    obtain ⟨-, rfl⟩ := expect_ok heq9
                    refine ⟨⟨?_, hne⟩, h6v⟩
                    exact ((List.tail_suffix _).trans
                      ((h8.trans (List.tail_suffix _)).trans (h6s.trans h5)))

/-- A successful function loop leaves a suffix; all parsed functions have
return type `"void"` when no token has the text `->`. -/
theorem parseFunctions_ok (fuel : Nat) :
    ∀ {ts : List Token} {fs : List Function} {r : List Token},
      parseFunctions fuel ts = .ok (fs, r) →
      r <:+ ts ∧ ((∀ t ∈ ts, t.value ≠ "->") → ∀ f ∈ fs, f.returns = "void") := by
  induction fuel with
  | zero => intro ts fs r h; simp [parseFunctions] at h
  | succ fuel ih =>
    intro ts fs r h
    rw [parseFunctions] at h
    split at h
    · split at h
      · cases h
      · rename_i f1 ts1 heq1
        split at h
        · cases h
        · rename_i fs2 ts2 heq2
          cases h
          obtain ⟨⟨h1, -⟩, hv1⟩ := parseFunction_ok heq1
          obtain ⟨h2, hv2⟩ := ih heq2
          have hsub : ts1 <:+ ts := h1.trans (List.tail_suffix _)
          refine ⟨(h2.trans hsub), fun H f hf => ?_⟩
          rcases List.mem_cons.mp hf with rfl | hf2
          · exact hv1 H
          · exact hv2 (fun t ht => H t (hsub.sublist.subset ht)) f hf2
    · cases h
      exact ⟨List.suffix_refl _, fun _ f hf => absurd hf (List.not_mem_nil f)⟩

/-- When no token in the stream has the text `->`, every function of a
successfully parsed module has return type `"void"`. -/
theorem parseModule_void {fuel : Nat} {ts : List Token} {m : Module}
    {r : List Token} (h : parseModule fuel ts = .ok (m, r))
    (H : ∀ t ∈ ts, t.value ≠ "->") : ∀ f ∈ m.functions, f.returns = "void" := by
  unfold parseModule at h
  split at h
  · cases h
  · rename_i tk1 ts1 heq1
    split at h
    · cases h
    · rename_i ntok ts2 heq2
      split at h
      · cases h
      · rename_i tk3 ts3 heq3
        split at h
        · cases h
        · rename_i imps ts4 heq4
          split at h
          · cases h
          · rename_i funcs ts5 heq5
            cases h
            obtain ⟨-, rfl⟩ := expect_ok heq1
            obtain ⟨-, rfl⟩ := expect_ok heq2
            obtain ⟨-, rfl⟩ := expect_ok heq3
            have h4 := parseImports_suffix _ heq4
            have hsub : ts4 <:+ ts :=
              (h4.trans (((List.tail_suffix _).trans
                (List.tail_suffix _)).trans (List.tail_suffix _)))
            obtain ⟨-, hv⟩ := parseFunctions_ok _ heq5
            exact hv (fun t ht => H t (hsub.sublist.subset ht))

/-! ## Parser lemmas: sufficient fuel never exhausts -/

/-- An error propagated from a fuel-free sub-parse is not the fuel
artifact. -/
theorem fuelOutB_err {α β : Type} {x : Except ParseError α} {e : ParseError}
    (hx : fuelOutB x = false) (heq : x = .error e) :
    fuelOutB (.error e : Except ParseError β) = false := by
  subst heq
  cases e <;> simp_all [fuelOutB]

/-- `expect` never reports fuel exhaustion. -/
theorem expect_noFuel (e : String) (ts : List Token) :
    fuelOutB (expect e ts) = false := by
  unfold expect
  split <;> rfl

/-- `parse_expression` never reports fuel exhaustion. -/
theorem parseExpression_noFuel (ts : List Token) :
    fuelOutB (parseExpression ts) = false := by
  unfold parseExpression
  split
  · split
    · rfl
    · rename_i e heq
      exact fuelOutB_err (expect_noFuel _ _) heq
  · rfl

/-- A successful `expect` of a non-EOF, non-empty expectation consumes
exactly one token. -/
theorem expect_ok_len {e : String} {ts : List Token} {t : Token}
    {r : List Token} (h : expect e ts = .ok (t, r)) (h1 : e ≠ "EOF")
    (h2 : e ≠ "") : r.length + 1 = ts.length := by
  obtain ⟨-, rfl⟩ := expect_ok h
  have hne := expect_ok_ne h h1 h2
  cases ts
  · exact absurd rfl hne
  · simp

/-- A suffix of the tail of a nonempty list is strictly shorter. -/
theorem suffix_tail_len {r ts : List Token} (h : r <:+ ts.tail)
    (hne : ts ≠ []) : r.length < ts.length := by
  have h1 := h.length_le
  cases ts
  · exact absurd rfl hne
  · simp only [List.tail_cons] at h1
    simp only [List.length_cons]
    omega

/-- With fuel exceeding the stream length, the argument loop never
reports fuel exhaustion. -/
theorem parseCallArgs_noFuel (fuel : Nat) :
    ∀ ts : List Token, ts.length < fuel →
      fuelOutB (parseCallArgs fuel ts) = false := by
  induction fuel with
  | zero => intro ts h; omega
  | succ fuel ih =>
    intro ts h
    rw [parseCallArgs]
    split
    · rfl
    · split
      · rename_i e heq
        exact fuelOutB_err (parseExpression_noFuel ts) heq
      · rename_i e1 ts1 heq1
        split
        · rename_i e2 heq2
          have hcomma : fuelOutB (if (curTok ts1).value = "," then
              expect "," ts1 else .ok (curTok ts1, ts1)) = false := by
            split
            · exact expect_noFuel _ _
            · rfl
          exact fuelOutB_err hcomma heq2
        · rename_i tk2 ts2 heq2
          split
          · rename_i e3 heq3
            obtain ⟨rfl, hne⟩ := parseExpression_ok heq1
            have hlen1 : ts.tail.length < ts.length := by
              cases ts
              · exact absurd rfl hne
              · simp
            have hlen2 : ts2.length ≤ ts.tail.length := by
              split at heq2
              · obtain ⟨-, rfl⟩ := expect_ok heq2
                exact (List.tail_suffix _).length_le
              · cases heq2
                exact Nat.le_refl _
            exact fuelOutB_err (ih ts2 (by omega)) heq3
          · rfl

/-- `parse_return` never reports fuel exhaustion. -/
theorem parseReturn_noFuel (ts : List Token) :
    fuelOutB (parseReturn ts) = false := by
  unfold parseReturn
  split
  · rename_i e heq
    exact fuelOutB_err (expect_noFuel _ _) heq
  · rename_i tk ts1 heq1
    split
    · rename_i e heq
      exact fuelOutB_err (parseExpression_noFuel _) heq
    · rename_i ex ts2 heq2
      split
      · rename_i e heq
        exact fuelOutB_err (expect_noFuel _ _) heq
      · rfl

/-- With fuel at least the stream length, `parse_call` never reports fuel
exhaustion. -/
theorem parseCall_noFuel (fuel : Nat) (ts : List Token)
    (h : ts.length ≤ fuel) : fuelOutB (parseCall fuel ts) = false := by
  unfold parseCall
  split
  · rename_i e heq
    exact fuelOutB_err (expect_noFuel _ _) heq
  · rename_i ftok ts1 heq1
    split
    · rename_i e heq
      exact fuelOutB_err (expect_noFuel _ _) heq
    · rename_i tk2 ts2 heq2
      split
      · rename_i e heq3
        have l1 := expect_ok_len heq1 (by decide) (by decide)
        have l2 := expect_ok_len heq2 (by decide) (by decide)
        exact fuelOutB_err (parseCallArgs_noFuel fuel ts2 (by omega)) heq3
      · rename_i args ts3 heq3
        split
        · rename_i e heq
          exact fuelOutB_err (expect_noFuel _ _) heq
        · rename_i tk4 ts4 heq4
          split
          · rename_i e heq
            exact fuelOutB_err (expect_noFuel _ _) heq
          · rfl

/-- With fuel at least the stream length, `parse_statement` never reports
fuel exhaustion. -/
theorem parseStatement_noFuel (fuel : Nat) (ts : List Token)
    (h : ts.length ≤ fuel) : fuelOutB (parseStatement fuel ts) = false := by
  unfold parseStatement
  split
  · exact parseReturn_noFuel ts
  · split
    · exact parseCall_noFuel fuel ts h
    · rfl

/-- With fuel exceeding the stream length, the statement loop never
reports fuel exhaustion. -/
theorem parseStmts_noFuel (fuel : Nat) :
    ∀ ts : List Token, ts.length < fuel →
      fuelOutB (parseStmts fuel ts) = false := by
  induction fuel with
  | zero => intro ts h; omega
  | succ fuel ih =>
    intro ts h
    rw [parseStmts]
    split
    · rfl
    · split
      · rename_i e heq
        exact fuelOutB_err (parseStatement_noFuel fuel ts (by omega)) heq
      · rename_i s1 ts1 heq1
        split
        · rename_i e heq2
          obtain ⟨hsuf, hne⟩ := parseStatement_ok heq1
          have := suffix_tail_len hsuf hne
          exact fuelOutB_err (ih ts1 (by omega)) heq2
        · rfl

/-- With fuel exceeding the stream length, the parameter loop never
reports fuel exhaustion. -/
theorem parseParams_noFuel (fuel : Nat) :
    ∀ ts : List Token, ts.length < fuel →
      fuelOutB (parseParams fuel ts) = false := by
  induction fuel with
  | zero => intro ts h; omega
  | succ fuel ih =>
    intro ts h
    rw [parseParams]
    split
    · rfl
    · split
      · rename_i e heq
        exact fuelOutB_err (expect_noFuel _ _) heq
      · rename_i ntok ts1 heq1
        split
        · rename_i e heq
          exact fuelOutB_err (expect_noFuel _ _) heq
        · rename_i tk2 ts2 heq2
          split
          · rename_i e heq
            exact fuelOutB_err (expect_noFuel _ _) heq
          · rename_i ttok ts3 heq3
            split
            · rename_i e heq4
              have hcomma : fuelOutB (if (curTok ts3).value = "," then
                  expect "," ts3 else .ok (curTok ts3, ts3)) = false := by
                split
                · exact expect_noFuel _ _
                · rfl
              exact fuelOutB_err hcomma heq4
            · rename_i tk4 ts4 heq4
              split
              · rename_i e heq5
                have l1 := expect_ok_len heq1 (by decide) (by decide)
                have l2 := expect_ok_len heq2 (by decide) (by decide)
                have l3 := expect_ok_len heq3 (by decide) (by decide)
                have l4 : ts4.length ≤ ts3.length := by
                  split at heq4
                  · obtain ⟨-, rfl⟩ := expect_ok heq4
                    exact (List.tail_suffix _).length_le
                  · cases heq4
                    exact Nat.le_refl _
                exact fuelOutB_err (ih ts4 (by omega)) heq5
              · rfl

/-- With fuel exceeding the stream length, the dotted-path loop never
reports fuel exhaustion. -/
theorem parseDots_noFuel (fuel : Nat) :
    ∀ ts : List Token, ts.length < fuel →
      fuelOutB (parseDots fuel ts) = false := by
  induction fuel with
  | zero => intro ts h; omega
  | succ fuel ih =>
    intro ts h
    rw [parseDots]
    split
    · split
      · rename_i e heq
        exact fuelOutB_err (expect_noFuel _ _) heq
      · rename_i tk1 ts1 heq1
        split
        · rename_i e heq
          exact fuelOutB_err (expect_noFuel _ _) heq
        · rename_i idt ts2 heq2
          split
          · rename_i e heq3
            have l1 := expect_ok_len heq1 (by decide) (by decide)
            have l2 := expect_ok_len heq2 (by decide) (by decide)
            exact fuelOutB_err (ih ts2 (by omega)) heq3
          · rfl
    · rfl

/-- With fuel at least the stream length, `parse_import` never reports
fuel exhaustion. -/
theorem parseImport_noFuel (fuel : Nat) (ts : List Token)
    (h : ts.length ≤ fuel) : fuelOutB (parseImport fuel ts) = false := by
  unfold parseImport
  split
  · rename_i e heq
    exact fuelOutB_err (expect_noFuel _ _) heq
  · rename_i tk1 ts1 heq1
    split
    · rename_i e heq
      exact fuelOutB_err (expect_noFuel _ _) heq
    · rename_i idt ts2 heq2
      split
      · rename_i e heq3
        have l1 := expect_ok_len heq1 (by decide) (by decide)
        have l2 := expect_ok_len heq2 (by decide) (by decide)
        exact fuelOutB_err (parseDots_noFuel fuel ts2 (by omega)) heq3
      · rename_i rest3 ts3 heq3
        split
        · rename_i e heq
          exact fuelOutB_err (expect_noFuel _ _) heq
        · rfl

/-- With fuel exceeding the stream length, the import loop never reports
fuel exhaustion. -/
theorem parseImports_noFuel (fuel : Nat) :
    ∀ ts : List Token, ts.length < fuel →
      fuelOutB (parseImports fuel ts) = false := by
  induction fuel with
  | zero => intro ts h; omega
  | succ fuel ih =>
    intro ts h
    rw [parseImports]
    split
    · split
      · rename_i e heq
        exact fuelOutB_err (parseImport_noFuel fuel ts (by omega)) heq
      · rename_i i1 ts1 heq1
        split
        · rename_i e heq2
          obtain ⟨hsuf, hne⟩ := parseImport_ok heq1
          have := suffix_tail_len hsuf hne
          exact fuelOutB_err (ih ts1 (by omega)) heq2
        · rfl
    · rfl

/-- With fuel at least the stream length, `parse_function` never reports
fuel exhaustion. -/
theorem parseFunction_noFuel (fuel : Nat) (ts : List Token)
    (h : ts.length ≤ fuel) : fuelOutB (parseFunction fuel ts) = false := by
  unfold parseFunction
  split
  · rename_i e heq
    exact fuelOutB_err (expect_noFuel _ _) heq
  · rename_i tk1 ts1 heq1
    split
    · rename_i e heq
      exact fuelOutB_err (expect_noFuel _ _) heq
    · rename_i ntok ts2 heq2
      split
      · rename_i e heq
        exact fuelOutB_err (expect_noFuel _ _) heq
      · rename_i tk3 ts3 heq3
        split
        · rename_i e heq4
          have l1 := expect_ok_len heq1 (by decide) (by decide)
          have l2 := expect_ok_len heq2 (by decide) (by decide)
          have l3 := expect_ok_len heq3 (by decide) (by decide)
          exact fuelOutB_err (parseParams_noFuel fuel ts3 (by omega)) heq4
        · rename_i params ts4 heq4
          split
          · rename_i e heq
            exact fuelOutB_err (expect_noFuel _ _) heq
          · rename_i tk5 ts5 heq5
            split
            · rename_i e heq6
              have harrow : fuelOutB (if (curTok ts5).value = "->" then
                  match expect "->" ts5 with
                  | .error e => .error e
                  | .ok (_, r1) =>
                    match expect "IDENT" r1 with
                    | .error e => .error e
                    | .ok (rtok, r2) => .ok (rtok.value, r2)
                else .ok ("void", ts5) :
                  Except ParseError (String × List Token)) = false := by
                split
                · split
                  · rename_i e2 heq7
                    exact fuelOutB_err (expect_noFuel _ _) heq7
                  · rename_i tka tsa heqa
                    split
                    · rename_i e2 heq8
                      exact fuelOutB_err (expect_noFuel _ _) heq8
                    · rfl
                · rfl
              exact fuelOutB_err harrow heq6
            · rename_i ret6 ts6 heq6
              split
              · rename_i e heq
                exact fuelOutB_err (expect_noFuel _ _) heq
              · rename_i tk7 ts7 heq7
                split
                · rename_i e heq8
                  have l1 := expect_ok_len heq1 (by decide) (by decide)
                  have l2 := expect_ok_len heq2 (by decide) (by decide)
                  have l3 := expect_ok_len heq3 (by decide) (by decide)
                  have l4 := (parseParams_suffix _ heq4).length_le
                  have l5 := expect_ok_len heq5 (by decide) (by decide)
                  have l6 : ts6.length ≤ ts5.length := by
                    split at heq6
                    · split at heq6
                      · cases heq6
                      · rename_i tka tsa heqa
                        split at heq6
                        · cases heq6
                        · rename_i rtok tsb heqb
                          cases heq6
                          obtain ⟨-, rfl⟩ := expect_ok heqa
                          obtain ⟨-, rfl⟩ := expect_ok heqb
                          exact ((List.tail_suffix _).trans
                            (List.tail_suffix _)).length_le
                    · cases heq6
                      exact Nat.le_refl _
                  have l7 := expect_ok_len heq7 (by decide) (by decide)
                  exact fuelOutB_err (parseStmts_noFuel fuel ts7 (by omega)) heq8
                · rename_i body ts8 heq8
                  split
                  · rename_i e heq
                    exact fuelOutB_err (expect_noFuel _ _) heq
                  · rfl

/-- With fuel exceeding the stream length, the function loop never
reports fuel exhaustion. -/
theorem parseFunctions_noFuel (fuel : Nat) :
    ∀ ts : List Token, ts.length < fuel →
      fuelOutB (parseFunctions fuel ts) = false := by
  induction fuel with
  | zero => intro ts h; omega
  | succ fuel ih =>
    intro ts h
    rw [parseFunctions]
    split
    · split
      · rename_i e heq
        exact fuelOutB_err (parseFunction_noFuel fuel ts (by omega)) heq
      · rename_i f1 ts1 heq1
        split
        · rename_i e heq2
          obtain ⟨⟨hsuf, hne⟩, -⟩ := parseFunction_ok heq1
          have := suffix_tail_len hsuf hne
          exact fuelOutB_err (ih ts1 (by omega)) heq2
        · rfl
    · rfl

/-- With fuel exceeding the stream length, `parse_module` never reports
fuel exhaustion. -/
theorem parseModule_noFuel (fuel : Nat) (ts : List Token)
    (h : ts.length < fuel) : fuelOutB (parseModule fuel ts) = false := by
  unfold parseModule
  split
  · rename_i e heq
    exact fuelOutB_err (expect_noFuel _ _) heq
  · rename_i tk1 ts1 heq1
    split
    · rename_i e heq
      exact fuelOutB_err (expect_noFuel _ _) heq
    · rename_i ntok ts2 heq2
      split
      · rename_i e heq
        exact fuelOutB_err (expect_noFuel _ _) heq
      · rename_i tk3 ts3 heq3
        split
        · rename_i e heq4
          have l1 := expect_ok_len heq1 (by decide) (by decide)
          have l2 := expect_ok_len heq2 (by decide) (by decide)
          have l3 := expect_ok_len heq3 (by decide) (by decide)
          exact fuelOutB_err (parseImports_noFuel fuel ts3 (by omega)) heq4
        · rename_i imps ts4 heq4
          split
          · rename_i e heq5
            have l1 := expect_ok_len heq1 (by decide) (by decide)
            have l2 := expect_ok_len heq2 (by decide) (by decide)
            have l3 := expect_ok_len heq3 (by decide) (by decide)
            have l4 := (parseImports_suffix _ heq4).length_le
            exact fuelOutB_err (parseFunctions_noFuel fuel ts4 (by omega)) heq5
          · rfl

/-- The tokenization loop yields nothing on exhausted input. -/
theorem tokLoop_nil (fuel : Nat) : tokLoop fuel [] = [] := by
  cases fuel <;> rfl

/-! ## Claims -/

/-- C1 (counterexample): parsing `module m; func f(a: int,) { }` does
**not** raise a `SyntaxError`: the parse succeeds. -/
theorem trailing_comma_not_rejected :
    isOkB (parse (tokenize "module m; func f(a: int,) \x7b \x7d".toList)) =
      true := by decide

/-- C1 (amended): parsing `module m; func f(a: int,) { }` silently
accepts the trailing comma — the optional-comma branch consumes it, the
parameter loop re-checks its condition and exits on `)` — and returns the
module `m` with one function `f`, parameter list `[(a, int)]`, implicit
return type `void` and empty body. -/
theorem trailing_comma_accepted :
    parse (tokenize "module m; func f(a: int,) \x7b \x7d".toList) =
      .ok ⟨"m", [], [⟨"f", [("a", "int")], "void", []⟩]⟩ := by decide

/-- C2: no token the lexer produces has text `-`, `>` or `->` (those
characters are silently skipped), and consequently every function of any
module parsed from lexer output has return type exactly `"void"`. -/
theorem lexer_drops_arrow_and_returns_void :
    (∀ (cs : List Char) (t : Token), t ∈ tokenize cs →
      t.value ≠ "-" ∧ t.value ≠ ">" ∧ t.value ≠ "->")
    ∧ (∀ (cs : List Char) (m : Module), parse (tokenize cs) = .ok m →
        ∀ f ∈ m.functions, f.returns = "void") := by
  constructor
  · intro cs t ht
    exact tokenShape_not_arrow (tokenize_shape cs t ht)
  · intro cs m hp f hf
    unfold parse at hp
    split at hp
    · cases hp
    · rename_i m' r heq
      cases hp
      exact parseModule_void heq
        (fun t ht => (tokenShape_not_arrow (tokenize_shape cs t ht)).2.2) f hf

/-- C2 (witness): concrete instances of both halves. -/
theorem lexer_drops_arrow_and_returns_void_witness :
    ((⟨"MODULE", "module"⟩ : Token).value ≠ "-" ∧
      (⟨"MODULE", "module"⟩ : Token).value ≠ ">" ∧
      (⟨"MODULE", "module"⟩ : Token).value ≠ "->") ∧
    (⟨"f", [], "void", []⟩ : Function).returns = "void" :=
  ⟨lexer_drops_arrow_and_returns_void.1 "module m;".toList
      ⟨"MODULE", "module"⟩ (by decide),
    lexer_drops_arrow_and_returns_void.2 "module m; func f() \x7b \x7d".toList
      ⟨"m", [], [⟨"f", [], "void", []⟩]⟩ (by decide)
      ⟨"f", [], "void", []⟩ (by decide)⟩

/-- C3: a `Call` of `print` with a non-empty argument list emits exactly
`printf(<first argument's text>);` — the first argument is forwarded
unchanged and all further arguments are dropped. -/
theorem print_call_forwards_first_arg (a : Expr) (rest : List Expr)
    (g : GenState) :
    generateCall "print" (a :: rest) g =
      .ok (emitLine ("printf(" ++ a.value ++ ");") g) := rfl

/-- C4: a `Call` of `print` with no arguments makes the generator abort
with the index error instead of emitting a line; such a call is reachable
from the source text `print();`, on which the whole pipeline aborts. -/
theorem print_no_args_index_error :
    (∀ g : GenState, generateCall "print" [] g = .error .indexError)
    ∧ parse (tokenize "module m; func f() \x7b print(); \x7d".toList) =
        .ok ⟨"m", [], [⟨"f", [], "void", [.call "print" []]⟩]⟩
    ∧ runGen ⟨"m", [], [⟨"f", [], "void", [.call "print" []]⟩]⟩ =
        .error .indexError
    ∧ compileToC "module m; func f() \x7b print(); \x7d" =
        .error (.genErr .indexError) :=
  ⟨fun _ => rfl, by decide, by decide, by decide⟩

/-- C5: a string literal whose closing quote is missing is tolerated: the
lexer emits a `STRING` token wrapping whatever it collected in quotes,
consumes the rest of the input, and the next request reports
end-of-input. -/
theorem unterminated_string_tolerated (body : List Char)
    (h : ∀ c ∈ body, c ≠ '"') :
    nextToken ('"' :: body) =
      (⟨"STRING", String.mk ('"' :: (body ++ ['"']))⟩, []) ∧
    tokenize ('"' :: body) = [⟨"STRING", String.mk ('"' :: (body ++ ['"']))⟩] ∧
    nextToken [] = (eofToken, []) := by
  have hb : ∀ c ∈ body, (c != '"') = true := by
    intro c hc
    simpa using h c hc
  have htake : body.takeWhile (· != '"') = body :=
    List.takeWhile_eq_self_iff.mpr hb
  have hdrop : body.dropWhile (· != '"') = [] :=
    List.dropWhile_eq_nil_iff.mpr hb
  have h1 : nextToken ('"' :: body) =
      (⟨"STRING", String.mk ('"' :: (body ++ ['"']))⟩, []) := by
    show getTok (body.length + 1) ('"' :: body) = _
    rw [getTok, if_neg (by decide),
      if_neg (by rintro ⟨hc, -⟩; exact absurd hc (by decide)),
      if_neg (by decide), if_pos rfl, htake, hdrop]
    rfl
  refine ⟨h1, ?_, rfl⟩
  show tokLoop (body.length + 1) ('"' :: body) = _
  rw [tokLoop, h1]
  simp only
  rw [if_neg (by decide), tokLoop_nil]

/-- C5 (witness): the unterminated literal `"hi` lexes to the token
`STRING "hi"` and the stream then ends. -/
theorem unterminated_string_tolerated_witness :
    nextToken ('"' :: ['h', 'i']) =
      (⟨"STRING", String.mk ('"' :: (['h', 'i'] ++ ['"']))⟩, []) ∧
    tokenize ('"' :: ['h', 'i']) =
      [⟨"STRING", String.mk ('"' :: (['h', 'i'] ++ ['"']))⟩] ∧
    nextToken [] = (eofToken, []) :=
  unterminated_string_tolerated ['h', 'i'] (by decide)

/-- C6: `generate_function` maps type names via the fixed table
`int→int`, `void→void`, `word→size_t`, `ptr→void*`, falls back to `int`
for every other name (return type and parameter types alike), and no type
name makes it fail: on an empty body it succeeds for all names, emitting
the mapped signature, closing brace and blank line. -/
theorem type_map_fallback (nm : String) (ps : List (String × String))
    (ret : String) (g : GenState) :
    generateFunction ⟨nm, ps, ret, []⟩ g =
      .ok ⟨g.output ++
        [String.join (List.replicate g.indent "    ") ++
          (typeMap ret ++ " " ++ nm ++ "(" ++
            String.intercalate ", "
              (ps.map fun p => typeMap p.2 ++ " " ++ p.1) ++ ") \x7b"),
         String.join (List.replicate g.indent "    ") ++ "\x7d",
         String.join (List.replicate g.indent "    ")], g.indent⟩
    ∧ typeMap "int" = "int" ∧ typeMap "void" = "void"
    ∧ typeMap "word" = "size_t" ∧ typeMap "ptr" = "void*"
    ∧ (∀ t, t ≠ "int" → t ≠ "void" → t ≠ "word" → t ≠ "ptr" →
        typeMap t = "int") := by
  refine ⟨?_, rfl, rfl, rfl, rfl, ?_⟩
  · unfold generateFunction generateStmts emitLine
    simp [List.append_assoc, String.append_empty]
  · intro t h1 h2 h3 h4
    unfold typeMap
    rw [if_neg h1, if_neg h2, if_neg h3, if_neg h4]

/-- C6 (witness): the unrecognized type name `mystery` maps to `int`, and
a function with such a parameter generates without error. -/
theorem type_map_fallback_witness :
    typeMap "mystery" = "int" :=
  (type_map_fallback "f" [("x", "mystery")] "void" initState).2.2.2.2.2
    "mystery" (by decide) (by decide) (by decide) (by decide)

/-- C7: `parse_expression` on any current token that is not a `STRING`
raises the `NotImplementedError`, which is a different error from both
`SyntaxError` forms; in particular `return 1 + 2;` in a function body
makes the whole parse abort with that error. -/
theorem unsupported_expression_raises :
    (∀ ts : List Token, (curTok ts).type ≠ "STRING" →
      parseExpression ts =
        .error (.notImplemented "Complex expressions not implemented yet"))
    ∧ (∀ (msg expected : String) (t : Token),
        ParseError.notImplemented msg ≠ .expectedGot expected t)
    ∧ (∀ (msg : String) (t : Token),
        ParseError.notImplemented msg ≠ .unexpectedToken t)
    ∧ parse (tokenize "module m; func f() \x7b return 1 + 2; \x7d".toList) =
        .error (.notImplemented "Complex expressions not implemented yet") := by
  refine ⟨fun ts h => ?_, fun _ _ _ => by simp, fun _ _ => by simp, by decide⟩
  unfold parseExpression
  rw [if_neg h]

/-- C7 (witness): `parse_expression` at a `;` token raises the
unimplemented-feature error. -/
theorem unsupported_expression_raises_witness :
    parseExpression [⟨";", ";"⟩] =
      .error (.notImplemented "Complex expressions not implemented yet") :=
  unsupported_expression_raises.1 [⟨";", ";"⟩] (by decide)

/-- C8: the parser is total on every finite token sequence: with its fuel
of `length + 1` no loop ever exhausts fuel, so `parse` returns a module
or one of the real errors; and on the exhausted stream the synthesized
EOF token fails every expectation other than `EOF` and the empty
string. -/
theorem parse_total :
    (∀ ts : List Token, fuelOutB (parse ts) = false)
    ∧ (∀ e : String, e ≠ "EOF" → e ≠ "" →
        expect e [] = .error (.expectedGot e eofToken)) := by
  constructor
  · intro ts
    unfold parse
    split
    · rename_i e heq
      exact fuelOutB_err
        (parseModule_noFuel (ts.length + 1) ts (Nat.lt_succ_self _)) heq
    · rfl
  · intro e h1 h2
    unfold expect
    rw [if_neg]
    · rfl
    · rintro (hc | hc)
      · exact h1 hc.symm
      · exact h2 hc.symm

/-- C8 (witness): concrete instances of totality and of the failing EOF
expectation. -/
theorem parse_total_witness :
    fuelOutB (parse ([] : List Token)) = false ∧
    expect ";" [] = .error (.expectedGot ";" eofToken) :=
  ⟨parse_total.1 [], parse_total.2 ";" (by decide) (by decide)⟩

/-- C9: any token whose text is one of the reserved words carries the
corresponding uppercased keyword kind and never the kind `IDENT`,
wherever it occurs in any source text. -/
theorem keyword_precedence :
    ∀ (cs : List Char) (t : Token), t ∈ tokenize cs →
      (t.value = "module" → t.type = "MODULE") ∧
      (t.value = "import" → t.type = "IMPORT") ∧
      (t.value = "func" → t.type = "FUNC") ∧
      (t.value = "return" → t.type = "RETURN") ∧
      ((t.value = "module" ∨ t.value = "import" ∨ t.value = "func" ∨
          t.value = "return") → t.type ≠ "IDENT") := by
  intro cs t ht
  have hk := tokenShape_keyword (tokenize_shape cs t ht)
  refine ⟨fun h => by rw [hk.1 h], fun h => by rw [hk.2.1 h],
    fun h => by rw [hk.2.2.1 h], fun h => by rw [hk.2.2.2 h], ?_⟩
  rintro (h | h | h | h)
  · rw [hk.1 h]; decide
  · rw [hk.2.1 h]; decide
  · rw [hk.2.2.1 h]; decide
  · rw [hk.2.2.2 h]; decide

/-- C9 (witness): the input `func` yields a `FUNC` keyword token, not an
identifier token. -/
theorem keyword_precedence_witness :
    (⟨"FUNC", "func"⟩ : Token).type ≠ "IDENT" :=
  (keyword_precedence "func".toList ⟨"FUNC", "func"⟩ (by decide)).2.2.2.2
    (by decide)

/-- C10: code generation is deterministic — two runs of a fresh generator
on the same module tree yield the same text. -/
theorem generation_deterministic (m : Module)
    (r1 r2 : Except GenError String)
    (h1 : runGen m = r1) (h2 : runGen m = r2) : r1 = r2 :=
  h1.symm.trans h2

/-- C10 (witness): both runs on the module `m` with no imports and no
functions produce the fixed prelude text. -/
theorem generation_deterministic_witness :
    (Except.ok "#include <stdio.h>\n#include <stdlib.h>\n\n" :
        Except GenError String) =
      .ok "#include <stdio.h>\n#include <stdlib.h>\n\n" :=
  generation_deterministic ⟨"m", [], []⟩ _ _ (by decide) (by decide)

end Rerec
